import Mathlib

/-!
Shallow embedding of the periodic-loop pacer implemented in
any_worker/src/Rate.cpp (class any_worker::Rate).

Modelling conventions.  C++ doubles are modelled as exact values:
configuration inputs as the type FloatVal (NaN, a signed infinity, or a
finite rational), computed durations and statistics as rationals.  The
POSIX timespec is modelled with integer seconds and nanoseconds.  Clock
samples (the clock_gettime results) are passed to the operations as
explicit arguments; the blocking call clock_nanosleep is modelled by
reporting the absolute instant waited for, if any.  Logging calls
(MELO_WARN_STREAM / MELO_ERROR_STREAM) are modelled by returning the
emitted diagnostics.
-/

/-- Value of a C++ double as seen by the pacer configuration: NaN, an
infinity with a sign (true meaning positive), or a finite rational. -/
inductive FloatVal where
  | nan : FloatVal
  | inf : Bool → FloatVal
  | finite : ℚ → FloatVal
  deriving DecidableEq

/-- Semantics of the C++ comparison x >= 0.0 on a double: NaN compares
false, positive infinity compares true. -/
def FloatVal.geZero : FloatVal → Bool
  | .nan => false
  | .inf b => b
  | .finite q => decide (0 ≤ q)

/-- Semantics of std isnan. -/
def FloatVal.isNan : FloatVal → Bool
  | .nan => true
  | _ => false

/-- Semantics of std isinf. -/
def FloatVal.isInf : FloatVal → Bool
  | .inf _ => true
  | _ => false

/-- Finite payload of a FloatVal.  It is only ever applied to values
that passed TimeStepIsValid, which excludes NaN and the infinities. -/
def FloatVal.toQ : FloatVal → ℚ
  | .finite q => q
  | _ => 0

/-- Semantics of the C++ comparison a > m where a is a finite double
and m an arbitrary double: false when m is NaN or positive infinity,
true when m is negative infinity, the rational comparison otherwise. -/
def FloatVal.gtF (a : ℚ) : FloatVal → Bool
  | .nan => false
  | .inf b => !b
  | .finite q => decide (q < a)

/-- Nanoseconds per second (the constant NSecPerSec of Rate). -/
def NSecPerSec : ℤ := 1000000000

/-- Seconds per nanosecond (the constant SecPerNSec of Rate). -/
def SecPerNSec : ℚ := 1 / 1000000000

/-- POSIX timespec: seconds and nanoseconds, both signed integers. -/
structure Timespec where
  tv_sec : ℤ
  tv_nsec : ℤ
  deriving DecidableEq

/-- Value of a timespec as a time in seconds. -/
def Timespec.val (t : Timespec) : ℚ :=
  (t.tv_sec : ℚ) + (t.tv_nsec : ℚ) * SecPerNSec

/-- Normalized timespec: the nanosecond field lies in [0, 10^9). -/
def Timespec.Normalized (t : Timespec) : Prop :=
  0 ≤ t.tv_nsec ∧ t.tv_nsec < NSecPerSec

instance (t : Timespec) : Decidable t.Normalized := by
  unfold Timespec.Normalized; infer_instance

/-- Rate GetDuration: duration in seconds between two timespecs,
computed as (stop.tv_sec - start.tv_sec) +
(stop.tv_nsec - start.tv_nsec) * SecPerNSec. -/
def GetDuration (start stop : Timespec) : ℚ :=
  ((stop.tv_sec - start.tv_sec : ℤ) : ℚ) +
    ((stop.tv_nsec - start.tv_nsec : ℤ) : ℚ) * SecPerNSec

/-- C conversion of a double to an integer type: truncation toward
zero. -/
def ctrunc (q : ℚ) : ℤ := if 0 ≤ q then ⌊q⌋ else ⌈q⌉

/-- Lines 193 to 195 of Rate sleep: advance the step time by timeStep
seconds.  The C statement stepTime.tv_nsec += timeStep * NSecPerSec
adds a double to a long, truncating the sum toward zero; the next two
lines renormalize with C integer division and remainder, which also
truncate toward zero (Int.tdiv, Int.tmod). -/
def advanceStepTime (st : Timespec) (timeStep : ℚ) : Timespec :=
  let nsecRaw : ℤ := ctrunc ((st.tv_nsec : ℚ) + timeStep * (NSecPerSec : ℚ))
  { tv_sec := st.tv_sec + nsecRaw.tdiv NSecPerSec,
    tv_nsec := nsecRaw.tmod NSecPerSec }

/-- Running statistics fields of Rate: cycle counter, mean awake time,
and the M2 aggregate of the single-pass variance algorithm. -/
structure WelfordStats where
  numTimeSteps : ℕ
  awakeTimeMean : ℚ
  awakeTimeM2 : ℚ
  deriving DecidableEq

/-- Lines 173 to 177 of Rate sleep: single-pass (Welford) mean and
variance update with a new awake sample. -/
def welfordUpdate (s : WelfordStats) (awake : ℚ) : WelfordStats :=
  let numTimeSteps := s.numTimeSteps + 1
  let delta := awake - s.awakeTimeMean
  let awakeTimeMean := s.awakeTimeMean + delta / (numTimeSteps : ℚ)
  let delta2 := awake - awakeTimeMean
  ⟨numTimeSteps, awakeTimeMean, s.awakeTimeM2 + delta * delta2⟩

/-- Severity of a message sent to the logging sink. -/
inductive Severity where
  | warning : Severity
  | error : Severity
  deriving DecidableEq

/-- Content of a diagnostic emitted by sleep: severity, rate name, and
the two numeric values printed.  The source prints the awake time and
the current time step (timeStep_.load()), for warnings and errors
alike. -/
structure Diag where
  severity : Severity
  rateName : String
  shownAwake : ℚ
  shownLimit : ℚ
  deriving DecidableEq

/-- State of the Rate class.  The stored time step is kept as a
rational: the setter only stores values that passed TimeStepIsValid,
which restricts to finite nonnegative doubles.  The thresholds may
legitimately hold infinities, so they keep the full FloatVal type. -/
structure Rate where
  name : String
  timeStep : ℚ
  maxTimeStepWarning : FloatVal
  maxTimeStepError : FloatVal
  enforceRate : Bool
  sleepStartTime : Timespec
  sleepEndTime : Timespec
  stepTime : Timespec
  numTimeSteps : ℕ
  numWarnings : ℕ
  numErrors : ℕ
  awakeTime : ℚ
  awakeTimeMean : ℚ
  awakeTimeM2 : ℚ
  deriving DecidableEq

/-- Rate TimeStepIsValid: timeStep >= 0.0, not infinite, not NaN. -/
def TimeStepIsValid (timeStep : FloatVal) : Bool :=
  timeStep.geZero && !timeStep.isInf && !timeStep.isNan

/-- Rate MaxTimeStepIsValid: maxTimeStep >= 0.0 and not NaN.  Unlike
TimeStepIsValid there is no infinity check. -/
def MaxTimeStepIsValid (maxTimeStep : FloatVal) : Bool :=
  maxTimeStep.geZero && !maxTimeStep.isNan

/-- Rate setTimeStep: store the value if valid, otherwise keep the old
value; the Bool reports whether the error diagnostic was emitted. -/
def Rate.setTimeStep (r : Rate) (timeStep : FloatVal) : Rate × Bool :=
  if TimeStepIsValid timeStep then ({ r with timeStep := timeStep.toQ }, false)
  else (r, true)

/-- Rate setMaxTimeStepWarning, same shape as setTimeStep but guarded
by MaxTimeStepIsValid. -/
def Rate.setMaxTimeStepWarning (r : Rate) (m : FloatVal) : Rate × Bool :=
  if MaxTimeStepIsValid m then ({ r with maxTimeStepWarning := m }, false)
  else (r, true)

/-- Rate setMaxTimeStepError, same shape as setTimeStep but guarded by
MaxTimeStepIsValid. -/
def Rate.setMaxTimeStepError (r : Rate) (m : FloatVal) : Rate × Bool :=
  if MaxTimeStepIsValid m then ({ r with maxTimeStepError := m }, false)
  else (r, true)

/-- Rate setEnforceRate: unconditional store. -/
def Rate.setEnforceRate (r : Rate) (e : Bool) : Rate :=
  { r with enforceRate := e }

/-- Rate reset: zero the counters and statistics and set all three
schedule timestamps to the current clock sample. -/
def Rate.reset (r : Rate) (now : Timespec) : Rate :=
  { r with
    numTimeSteps := 0, numWarnings := 0, numErrors := 0,
    awakeTime := 0, awakeTimeMean := 0, awakeTimeM2 := 0,
    sleepStartTime := now, sleepEndTime := now, stepTime := now }

/-- Result of one sleep call: the successor state, the diagnostics
emitted, and the absolute instant passed to clock_nanosleep when the
call blocks (none when it returns without blocking). -/
structure SleepResult where
  state : Rate
  diags : List Diag
  blocksUntil : Option Timespec

/-- Line 169 of Rate sleep: the awake time of the cycle, the duration
from the previous sleepEndTime to the first clock sample. -/
def sleepAwake (r : Rate) (now1 : Timespec) : ℚ :=
  GetDuration r.sleepEndTime now1

/-- Line 180 of Rate sleep: the error-threshold comparison. -/
def sleepIsError (r : Rate) (now1 : Timespec) : Bool :=
  FloatVal.gtF (sleepAwake r now1) r.maxTimeStepError

/-- Line 185 of Rate sleep: the warning-threshold comparison, only
taken when the error branch was not. -/
def sleepIsWarning (r : Rate) (now1 : Timespec) : Bool :=
  !sleepIsError r now1 && FloatVal.gtF (sleepAwake r now1) r.maxTimeStepWarning

/-- Diagnostics emitted by lines 180 to 190 of Rate sleep.  Both
messages print the rate name, the awake time and timeStep_.load(). -/
def sleepDiags (r : Rate) (now1 : Timespec) : List Diag :=
  if sleepIsError r now1 then
    [⟨Severity.error, r.name, sleepAwake r now1, r.timeStep⟩]
  else if sleepIsWarning r now1 then
    [⟨Severity.warning, r.name, sleepAwake r now1, r.timeStep⟩]
  else []

/-- Lines 168 to 190 of Rate sleep: sample the clock into
sleepStartTime, store the awake time, run the statistics update and the
threshold counters. -/
def sleepStatsState (r : Rate) (now1 : Timespec) : Rate :=
  let stats := welfordUpdate ⟨r.numTimeSteps, r.awakeTimeMean, r.awakeTimeM2⟩ (sleepAwake r now1)
  { r with
    sleepStartTime := now1,
    awakeTime := sleepAwake r now1,
    numTimeSteps := stats.numTimeSteps,
    awakeTimeMean := stats.awakeTimeMean,
    awakeTimeM2 := stats.awakeTimeM2,
    numErrors := if sleepIsError r now1 then r.numErrors + 1 else r.numErrors,
    numWarnings := if sleepIsWarning r now1 then r.numWarnings + 1 else r.numWarnings }

/-- Rate sleep.  The two clock_gettime samples are passed in as now1
(taken at entry, stored into sleepStartTime) and now2 (taken after the
schedule advance, stored into sleepEndTime).  Lines 192 to 215 of the
source: advance the step time, then either snap the schedule (behind
and not enforcing), keep the deficit (behind and enforcing), or set
sleepEndTime to the target and block until it. -/
def Rate.sleep (r : Rate) (now1 now2 : Timespec) : SleepResult :=
  let r1 := sleepStatsState r now1
  let stepTime := advanceStepTime r.stepTime r.timeStep
  if GetDuration now2 stepTime < 0 then
    if !r.enforceRate then
      ⟨{ r1 with sleepEndTime := now2, stepTime := now2 }, sleepDiags r now1, none⟩
    else
      ⟨{ r1 with sleepEndTime := now2, stepTime := stepTime }, sleepDiags r now1, none⟩
  else
    ⟨{ r1 with sleepEndTime := stepTime, stepTime := stepTime }, sleepDiags r now1, some stepTime⟩

/-- Rate getTimeStep. -/
def Rate.getTimeStep (r : Rate) : ℚ := r.timeStep

/-- Rate getAwakeTime: NaN (modelled as none) when no cycle has run
since reset, otherwise the awake time of the last cycle. -/
def Rate.getAwakeTime (r : Rate) : Option ℚ :=
  if r.numTimeSteps = 0 then none else some r.awakeTime

/-- Rate getAwakeTimeMean: NaN (none) when no cycle has run since
reset, otherwise the running mean. -/
def Rate.getAwakeTimeMean (r : Rate) : Option ℚ :=
  if r.numTimeSteps = 0 then none else some r.awakeTimeMean

/-- Rate getAwakeTimeVar: NaN (none) when fewer than two cycles have
run, otherwise awakeTimeM2 / (numTimeSteps - 1); the subtraction is on
the unsigned counter. -/
def Rate.getAwakeTimeVar (r : Rate) : Option ℚ :=
  if r.numTimeSteps ≤ 1 then none
  else some (r.awakeTimeM2 / ((r.numTimeSteps - 1 : ℕ) : ℚ))

/-- Rate getAwakeTimeStdDev: square root of the variance (none models
NaN, and the square root of NaN is NaN). -/
noncomputable def Rate.getAwakeTimeStdDev (r : Rate) : Option ℝ :=
  (r.getAwakeTimeVar).map fun v => Real.sqrt (v : ℝ)

/-- Iterate sleep, feeding the same clock sample to both reads of every
call: the caller does negligible work, so at clock resolution no time
elapses between the samples. -/
def iterSleep (r : Rate) (now : Timespec) : ℕ → Rate
  | 0 => r
  | n + 1 => ((iterSleep r now n).sleep now now).state

/-- Configuration wellformedness, as guaranteed by the constructor and
the setters (spec section 3 invariants): the stored time step is
nonnegative and the stored thresholds pass MaxTimeStepIsValid. -/
def Rate.ConfigOK (r : Rate) : Prop :=
  0 ≤ r.timeStep ∧ MaxTimeStepIsValid r.maxTimeStepWarning = true ∧
    MaxTimeStepIsValid r.maxTimeStepError = true

/-- Reachable states of a Rate object.  Construction ends in reset (the
header with the default member initializers is not among the sources;
the spec section 3 invariants give ConfigOK for the configuration the
constructor leaves behind).  Later states arise by a setter, a reset,
or a sleep whose clock samples are normalized and monotone. -/
inductive Reachable : Rate → Prop where
  | init (r : Rate) (now : Timespec) :
      r.ConfigOK → now.Normalized → Reachable (r.reset now)
  | sleepStep (r : Rate) (now1 now2 : Timespec) : Reachable r →
      now1.Normalized → now2.Normalized →
      (r.sleepEndTime).val ≤ now1.val → now1.val ≤ now2.val →
      Reachable ((r.sleep now1 now2).state)
  | setTimeStepStep (r : Rate) (v : FloatVal) : Reachable r →
      Reachable ((r.setTimeStep v).1)
  | setWarnStep (r : Rate) (v : FloatVal) : Reachable r →
      Reachable ((r.setMaxTimeStepWarning v).1)
  | setErrorStep (r : Rate) (v : FloatVal) : Reachable r →
      Reachable ((r.setMaxTimeStepError v).1)
  | setEnforceStep (r : Rate) (e : Bool) : Reachable r →
      Reachable (r.setEnforceRate e)
  | resetStep (r : Rate) (now : Timespec) : Reachable r →
      now.Normalized → Reachable (r.reset now)

/-! Basic lemmas about durations and the step-time advance. -/

theorem GetDuration_eq (a b : Timespec) : GetDuration a b = b.val - a.val := by
  simp only [GetDuration, Timespec.val]
  push_cast
  ring

theorem ctrunc_intCast_add (n : ℤ) (x : ℚ) (h : 0 ≤ (n : ℚ) + x) :
    ctrunc ((n : ℚ) + x) = n + ⌊x⌋ := by
  simp [ctrunc, h, Int.floor_int_add]

theorem le_ctrunc_intCast_add (n : ℤ) (x : ℚ) (hx : 0 ≤ x) :
    n ≤ ctrunc ((n : ℚ) + x) := by
  unfold ctrunc
  split
  · exact Int.le_floor.mpr (by linarith)
  · have h1 : (n : ℚ) ≤ (n : ℚ) + x := by linarith
    have h2 := Int.le_ceil ((n : ℚ) + x)
    exact_mod_cast h1.trans h2

theorem advanceStepTime_val (st : Timespec) (ts : ℚ) :
    (advanceStepTime st ts).val =
      st.val +
        ((ctrunc ((st.tv_nsec : ℚ) + ts * (NSecPerSec : ℚ)) - st.tv_nsec : ℤ) : ℚ) * SecPerNSec := by
  have h := Int.tdiv_add_tmod (ctrunc ((st.tv_nsec : ℚ) + ts * (NSecPerSec : ℚ))) NSecPerSec
  have hq : ((NSecPerSec : ℤ) * ((ctrunc ((st.tv_nsec : ℚ) + ts * (NSecPerSec : ℚ))).tdiv NSecPerSec)
      + (ctrunc ((st.tv_nsec : ℚ) + ts * (NSecPerSec : ℚ))).tmod NSecPerSec : ℚ)
      = ((ctrunc ((st.tv_nsec : ℚ) + ts * (NSecPerSec : ℚ)) : ℤ) : ℚ) := by
    exact_mod_cast congrArg (fun z : ℤ => (z : ℚ)) h
  simp only [advanceStepTime, Timespec.val, SecPerNSec, NSecPerSec] at *
  push_cast at hq ⊢
  linarith

theorem advanceStepTime_val_ge (st : Timespec) (ts : ℚ) (h : 0 ≤ ts) :
    st.val ≤ (advanceStepTime st ts).val := by
  rw [advanceStepTime_val]
  have hN : (0 : ℚ) ≤ (NSecPerSec : ℚ) := by norm_num [NSecPerSec]
  have h1 : st.tv_nsec ≤ ctrunc ((st.tv_nsec : ℚ) + ts * (NSecPerSec : ℚ)) :=
    le_ctrunc_intCast_add st.tv_nsec (ts * (NSecPerSec : ℚ)) (mul_nonneg h hN)
  have h2 : (0 : ℚ) ≤ ((ctrunc ((st.tv_nsec : ℚ) + ts * (NSecPerSec : ℚ)) - st.tv_nsec : ℤ) : ℚ) := by
    exact_mod_cast Int.sub_nonneg.mpr h1
  have h3 : (0 : ℚ) ≤ SecPerNSec := by norm_num [SecPerNSec]
  nlinarith

theorem advanceStepTime_normalized (st : Timespec) (ts : ℚ)
    (hst : st.Normalized) (hts : 0 ≤ ts) : (advanceStepTime st ts).Normalized := by
  obtain ⟨h0, h1⟩ := hst
  have hN : (0 : ℚ) ≤ (NSecPerSec : ℚ) := by norm_num [NSecPerSec]
  have harg : (0 : ℚ) ≤ (st.tv_nsec : ℚ) + ts * (NSecPerSec : ℚ) := by
    have : (0 : ℚ) ≤ (st.tv_nsec : ℚ) := by exact_mod_cast h0
    nlinarith
  have hraw : 0 ≤ ctrunc ((st.tv_nsec : ℚ) + ts * (NSecPerSec : ℚ)) := by
    unfold ctrunc
    rw [if_pos harg]
    exact Int.floor_nonneg.mpr harg
  constructor
  · exact Int.tmod_nonneg NSecPerSec hraw
  · exact Int.tmod_lt_of_pos _ (by norm_num [NSecPerSec])

theorem advanceStepTime_val_exact (st : Timespec) (ts : ℚ)
    (h0 : 0 ≤ st.tv_nsec) (hts : 0 ≤ ts) :
    (advanceStepTime st ts).val =
      st.val + (⌊ts * (NSecPerSec : ℚ)⌋ : ℚ) * SecPerNSec := by
  rw [advanceStepTime_val]
  have hN : (0 : ℚ) ≤ (NSecPerSec : ℚ) := by norm_num [NSecPerSec]
  have harg : (0 : ℚ) ≤ (st.tv_nsec : ℚ) + ts * (NSecPerSec : ℚ) := by
    have : (0 : ℚ) ≤ (st.tv_nsec : ℚ) := by exact_mod_cast h0
    nlinarith
  rw [ctrunc_intCast_add st.tv_nsec _ harg]
  push_cast
  ring

theorem advanceStepTime_zero (st : Timespec) (hst : st.Normalized) :
    advanceStepTime st 0 = st := by
  obtain ⟨h0, h1⟩ := hst
  have harg : (0 : ℚ) ≤ (st.tv_nsec : ℚ) + 0 * (NSecPerSec : ℚ) := by
    have : (0 : ℚ) ≤ (st.tv_nsec : ℚ) := by exact_mod_cast h0
    linarith
  have hraw : ctrunc ((st.tv_nsec : ℚ) + 0 * (NSecPerSec : ℚ)) = st.tv_nsec := by
    rw [ctrunc_intCast_add st.tv_nsec _ harg]
    simp
  have hdiv : st.tv_nsec.tdiv NSecPerSec = 0 := by
    rw [Int.tdiv_eq_ediv h0 (by norm_num [NSecPerSec])]
    exact Int.ediv_eq_zero_of_lt h0 h1
  have hmod : st.tv_nsec.tmod NSecPerSec = st.tv_nsec := by
    have h := Int.tdiv_add_tmod st.tv_nsec NSecPerSec
    rw [hdiv] at h
    omega
  simp only [advanceStepTime, hraw, hdiv, hmod]
  cases st
  simp

/-! Branch characterizations of sleep. -/

theorem sleep_behind_noEnforce (r : Rate) (now1 now2 : Timespec)
    (hB : GetDuration now2 (advanceStepTime r.stepTime r.timeStep) < 0)
    (hE : r.enforceRate = false) :
    r.sleep now1 now2 =
      ⟨{ sleepStatsState r now1 with sleepEndTime := now2, stepTime := now2 },
        sleepDiags r now1, none⟩ := by
  simp [Rate.sleep, hB, hE]

theorem sleep_behind_enforce (r : Rate) (now1 now2 : Timespec)
    (hB : GetDuration now2 (advanceStepTime r.stepTime r.timeStep) < 0)
    (hE : r.enforceRate = true) :
    r.sleep now1 now2 =
      ⟨{ sleepStatsState r now1 with sleepEndTime := now2, stepTime := advanceStepTime r.stepTime r.timeStep },
        sleepDiags r now1, none⟩ := by
  simp [Rate.sleep, hB, hE]

theorem sleep_notBehind (r : Rate) (now1 now2 : Timespec)
    (hB : ¬ GetDuration now2 (advanceStepTime r.stepTime r.timeStep) < 0) :
    r.sleep now1 now2 =
      ⟨{ sleepStatsState r now1 with sleepEndTime := advanceStepTime r.stepTime r.timeStep, stepTime := advanceStepTime r.stepTime r.timeStep },
        sleepDiags r now1, some (advanceStepTime r.stepTime r.timeStep)⟩ := by
  simp [Rate.sleep, hB]

theorem sleep_diags_eq (r : Rate) (now1 now2 : Timespec) :
    (r.sleep now1 now2).diags = sleepDiags r now1 := by
  by_cases hB : GetDuration now2 (advanceStepTime r.stepTime r.timeStep) < 0
  · by_cases hE : r.enforceRate
    · rw [sleep_behind_enforce r now1 now2 hB hE]
    · rw [sleep_behind_noEnforce r now1 now2 hB (by simpa using hE)]
  · rw [sleep_notBehind r now1 now2 hB]

theorem sleep_state_stats (r : Rate) (now1 now2 : Timespec) :
    (r.sleep now1 now2).state.numTimeSteps = r.numTimeSteps + 1 ∧
    (r.sleep now1 now2).state.awakeTime = sleepAwake r now1 ∧
    (r.sleep now1 now2).state.awakeTimeMean =
      r.awakeTimeMean + (sleepAwake r now1 - r.awakeTimeMean) / ((r.numTimeSteps : ℚ) + 1) ∧
    (r.sleep now1 now2).state.awakeTimeM2 =
      r.awakeTimeM2 + (sleepAwake r now1 - r.awakeTimeMean) *
        (sleepAwake r now1 -
          (r.awakeTimeMean + (sleepAwake r now1 - r.awakeTimeMean) / ((r.numTimeSteps : ℚ) + 1))) ∧
    (r.sleep now1 now2).state.numErrors =
      (if sleepIsError r now1 then r.numErrors + 1 else r.numErrors) ∧
    (r.sleep now1 now2).state.numWarnings =
      (if sleepIsWarning r now1 then r.numWarnings + 1 else r.numWarnings) ∧
    (r.sleep now1 now2).state.sleepStartTime = now1 ∧
    (r.sleep now1 now2).state.name = r.name ∧
    (r.sleep now1 now2).state.timeStep = r.timeStep ∧
    (r.sleep now1 now2).state.maxTimeStepWarning = r.maxTimeStepWarning ∧
    (r.sleep now1 now2).state.maxTimeStepError = r.maxTimeStepError ∧
    (r.sleep now1 now2).state.enforceRate = r.enforceRate := by
  have hcast : ((r.numTimeSteps + 1 : ℕ) : ℚ) = (r.numTimeSteps : ℚ) + 1 := by push_cast; ring
  by_cases hB : GetDuration now2 (advanceStepTime r.stepTime r.timeStep) < 0
  · by_cases hE : r.enforceRate
    · rw [sleep_behind_enforce r now1 now2 hB hE]
      simp [sleepStatsState, welfordUpdate, hcast]
    · rw [sleep_behind_noEnforce r now1 now2 hB (by simpa using hE)]
      simp [sleepStatsState, welfordUpdate, hcast]
  · rw [sleep_notBehind r now1 now2 hB]
    simp [sleepStatsState, welfordUpdate, hcast]

/-! Direct (two-pass) statistics, following the words of the spec, and
the characterization of the single-pass update. -/

/-- Direct arithmetic mean of a sample list: the sum over the count. -/
def directMean (xs : List ℚ) : ℚ := xs.sum / (xs.length : ℚ)

/-- Direct sum of squared deviations from the mean. -/
def directM2 (xs : List ℚ) : ℚ :=
  (xs.map (fun x => (x - directMean xs) ^ 2)).sum

/-- Direct unbiased sample variance. -/
def directVar (xs : List ℚ) : ℚ := directM2 xs / ((xs.length : ℚ) - 1)

/-- Statistics state after feeding the samples of a list, in order,
through the single-pass update, starting from the reset state. -/
def welfordRun (xs : List ℚ) : WelfordStats := xs.foldl welfordUpdate ⟨0, 0, 0⟩

theorem sum_map_sq_sub (xs : List ℚ) (m : ℚ) :
    (xs.map (fun x => (x - m) ^ 2)).sum =
      (xs.map (fun x => x ^ 2)).sum - 2 * m * xs.sum + (xs.length : ℚ) * m ^ 2 := by
  induction xs with
  | nil => simp
  | cons a t ih =>
    simp only [List.map_cons, List.sum_cons, List.length_cons, ih]
    push_cast
    ring

theorem directM2_eq (xs : List ℚ) (h : xs.length ≠ 0) :
    directM2 xs = (xs.map (fun x => x ^ 2)).sum - xs.sum ^ 2 / (xs.length : ℚ) := by
  have hn : ((xs.length : ℚ)) ≠ 0 := by exact_mod_cast h
  rw [directM2, sum_map_sq_sub, directMean]
  field_simp
  ring

theorem welfordRun_charac (xs : List ℚ) :
    welfordRun xs = ⟨xs.length, directMean xs, directM2 xs⟩ := by
  induction xs using List.reverseRecOn with
  | nil => simp [welfordRun, directMean, directM2]
  | append_singleton t x ih =>
    have hstep : welfordRun (t ++ [x]) = welfordUpdate (welfordRun t) x := by
      simp [welfordRun, List.foldl_append]
    rw [hstep, ih]
    rcases eq_or_ne t [] with rfl | hne
    · simp [welfordUpdate, directMean, directM2]
    · have hn : ((t.length : ℚ)) ≠ 0 := by
        have := List.length_pos.mpr hne
        positivity
      have hn1 : ((t.length : ℚ)) + 1 ≠ 0 := by positivity
      have hlen : ((t ++ [x]).length : ℚ) = (t.length : ℚ) + 1 := by
        simp
      have hsum : (t ++ [x]).sum = t.sum + x := by simp
      have hmean : directMean (t ++ [x]) = (t.sum + x) / ((t.length : ℚ) + 1) := by
        rw [directMean, hsum, hlen]
      have hM2t := directM2_eq t (by simpa using hne)
      have hM2tx := directM2_eq (t ++ [x]) (by simp)
      have hsq : ((t ++ [x]).map (fun y => y ^ 2)).sum = (t.map (fun y => y ^ 2)).sum + x ^ 2 := by
        simp
      rw [hsq, hsum, hlen] at hM2tx
      simp only [welfordUpdate, WelfordStats.mk.injEq]
      refine ⟨by simp, ?_, ?_⟩
      · rw [hmean, directMean]
        push_cast
        field_simp
        ring
      · rw [hM2tx, hM2t, directMean]
        push_cast
        field_simp
        ring

/-! Invariant: the M2 aggregate never becomes negative. -/

theorem reachable_M2_nonneg (r : Rate) (h : Reachable r) : 0 ≤ r.awakeTimeM2 := by
  induction h with
  | init r now hc hn => simp [Rate.reset]
  | sleepStep r now1 now2 hr h1 h2 h3 h4 ih =>
    obtain ⟨-, -, -, hM2, -⟩ := sleep_state_stats r now1 now2
    rw [hM2]
    have hn : (0 : ℚ) < (r.numTimeSteps : ℚ) + 1 := by positivity
    have hrw : sleepAwake r now1 -
        (r.awakeTimeMean + (sleepAwake r now1 - r.awakeTimeMean) / ((r.numTimeSteps : ℚ) + 1)) =
        (sleepAwake r now1 - r.awakeTimeMean) * ((r.numTimeSteps : ℚ) / ((r.numTimeSteps : ℚ) + 1)) := by
      field_simp
      ring
    rw [hrw]
    have key : 0 ≤ (sleepAwake r now1 - r.awakeTimeMean) *
        ((sleepAwake r now1 - r.awakeTimeMean) * ((r.numTimeSteps : ℚ) / ((r.numTimeSteps : ℚ) + 1))) := by
      have : (sleepAwake r now1 - r.awakeTimeMean) *
          ((sleepAwake r now1 - r.awakeTimeMean) * ((r.numTimeSteps : ℚ) / ((r.numTimeSteps : ℚ) + 1))) =
          (sleepAwake r now1 - r.awakeTimeMean) ^ 2 * ((r.numTimeSteps : ℚ) / ((r.numTimeSteps : ℚ) + 1)) := by
        ring
      rw [this]
      positivity
    linarith
  | setTimeStepStep r v hr ih =>
    unfold Rate.setTimeStep
    split <;> exact ih
  | setWarnStep r v hr ih =>
    unfold Rate.setMaxTimeStepWarning
    split <;> exact ih
  | setErrorStep r v hr ih =>
    unfold Rate.setMaxTimeStepError
    split <;> exact ih
  | setEnforceStep r e hr ih => exact ih
  | resetStep r now hr hn => simp [Rate.reset]

/-! Concrete states used by the witnesses and counterexamples. -/

/-- A concrete clock sample. -/
def ts0 : Timespec := ⟨0, 0⟩

/-- A concrete Rate state: time step one second, both thresholds two
seconds, enforced rate, schedule anchored at time zero. -/
def rate0 : Rate :=
  ⟨"rate", 1, FloatVal.finite 2, FloatVal.finite 2, true, ts0, ts0, ts0, 0, 0, 0, 0, 0, 0⟩

theorem rate0_adv : advanceStepTime rate0.stepTime rate0.timeStep = ⟨1, 0⟩ := by
  show advanceStepTime ts0 1 = ⟨1, 0⟩
  unfold advanceStepTime ts0 ctrunc NSecPerSec
  norm_num

theorem rate0_awake5 : sleepAwake rate0 ⟨5, 0⟩ = 5 := by
  norm_num [sleepAwake, rate0, ts0, GetDuration, SecPerNSec]

/-- C2: schedule-advance policy of sleep.  After advancing the step
time by the time step, the second clock sample (sleepEnd) is compared
with the target: if the target is in the past and enforceRate is false,
the target snaps to sleepEnd and the call does not block; if the target
is in the past and enforceRate is true, the call does not block and the
(advanced) target is kept, carrying the deficit forward; otherwise
sleepEnd is set to the target and the call blocks until the absolute
instant of the target. -/
theorem sleep_schedule_policy (r : Rate) (now1 now2 : Timespec) :
    (GetDuration now2 (advanceStepTime r.stepTime r.timeStep) < 0 → r.enforceRate = false →
      (r.sleep now1 now2).state.stepTime = now2 ∧
      (r.sleep now1 now2).state.sleepEndTime = now2 ∧
      (r.sleep now1 now2).blocksUntil = none) ∧
    (GetDuration now2 (advanceStepTime r.stepTime r.timeStep) < 0 → r.enforceRate = true →
      (r.sleep now1 now2).state.stepTime = advanceStepTime r.stepTime r.timeStep ∧
      (r.sleep now1 now2).state.sleepEndTime = now2 ∧
      (r.sleep now1 now2).blocksUntil = none) ∧
    (¬ GetDuration now2 (advanceStepTime r.stepTime r.timeStep) < 0 →
      (r.sleep now1 now2).state.sleepEndTime = advanceStepTime r.stepTime r.timeStep ∧
      (r.sleep now1 now2).state.stepTime = advanceStepTime r.stepTime r.timeStep ∧
      (r.sleep now1 now2).blocksUntil = some (advanceStepTime r.stepTime r.timeStep)) := by
  refine ⟨fun hB hE => ?_, fun hB hE => ?_, fun hB => ?_⟩
  · rw [sleep_behind_noEnforce r now1 now2 hB hE]
    exact ⟨rfl, rfl, rfl⟩
  · rw [sleep_behind_enforce r now1 now2 hB hE]
    exact ⟨rfl, rfl, rfl⟩
  · rw [sleep_notBehind r now1 now2 hB]
    exact ⟨rfl, rfl, rfl⟩

/-- Witness for C2 at a concrete behind-schedule input with enforced
rate: the call does not block and the advanced target is kept. -/
theorem sleep_schedule_policy_witness :
    (rate0.sleep ⟨5, 0⟩ ⟨5, 0⟩).state.stepTime = advanceStepTime rate0.stepTime rate0.timeStep ∧
    (rate0.sleep ⟨5, 0⟩ ⟨5, 0⟩).state.sleepEndTime = ⟨5, 0⟩ ∧
    (rate0.sleep ⟨5, 0⟩ ⟨5, 0⟩).blocksUntil = none :=
  (sleep_schedule_policy rate0 ⟨5, 0⟩ ⟨5, 0⟩).2.1
    (by rw [rate0_adv]; norm_num [GetDuration, SecPerNSec]) rfl

/-- C3: the threshold check is mutually exclusive with error priority.
If the awake time exceeds the error threshold, only the error counter
is incremented; else if it exceeds the warning threshold, only the
warning counter is incremented; otherwise neither counter changes and
no diagnostic is emitted. -/
theorem sleep_threshold_exclusive (r : Rate) (now1 now2 : Timespec) :
    (FloatVal.gtF (sleepAwake r now1) r.maxTimeStepError = true →
      (r.sleep now1 now2).state.numErrors = r.numErrors + 1 ∧
      (r.sleep now1 now2).state.numWarnings = r.numWarnings) ∧
    (FloatVal.gtF (sleepAwake r now1) r.maxTimeStepError = false →
     FloatVal.gtF (sleepAwake r now1) r.maxTimeStepWarning = true →
      (r.sleep now1 now2).state.numWarnings = r.numWarnings + 1 ∧
      (r.sleep now1 now2).state.numErrors = r.numErrors) ∧
    (FloatVal.gtF (sleepAwake r now1) r.maxTimeStepError = false →
     FloatVal.gtF (sleepAwake r now1) r.maxTimeStepWarning = false →
      (r.sleep now1 now2).state.numErrors = r.numErrors ∧
      (r.sleep now1 now2).state.numWarnings = r.numWarnings ∧
      (r.sleep now1 now2).diags = []) := by
  obtain ⟨-, -, -, -, herr, hwarn, -⟩ := sleep_state_stats r now1 now2
  have hdiags := sleep_diags_eq r now1 now2
  refine ⟨fun hE => ?_, fun hE hW => ?_, fun hE hW => ?_⟩
  · rw [herr, hwarn]
    simp [sleepIsError, sleepIsWarning, hE]
  · rw [herr, hwarn]
    simp [sleepIsError, sleepIsWarning, hE, hW]
  · rw [herr, hwarn, hdiags]
    simp [sleepDiags, sleepIsError, sleepIsWarning, hE, hW]

/-- Witness for C3 at a concrete input whose awake time of five seconds
exceeds the error threshold of two seconds. -/
theorem sleep_threshold_exclusive_witness :
    (rate0.sleep ⟨5, 0⟩ ⟨5, 0⟩).state.numErrors = rate0.numErrors + 1 ∧
    (rate0.sleep ⟨5, 0⟩ ⟨5, 0⟩).state.numWarnings = rate0.numWarnings :=
  (sleep_threshold_exclusive rate0 ⟨5, 0⟩ ⟨5, 0⟩).1
    (by rw [rate0_awake5]; norm_num [rate0, FloatVal.gtF])

/-- C7: the step time is never rewound.  With a valid nonnegative time
step, a sleep call leaves the stored step time greater than or equal to
its previous value; the setters leave it untouched; only reset moves it
(re-anchoring it to the clock sample passed in). -/
theorem stepTime_never_rewound (r : Rate) (now1 now2 now : Timespec) (v : FloatVal) (e : Bool) :
    (0 ≤ r.timeStep → (r.stepTime).val ≤ (((r.sleep now1 now2).state).stepTime).val) ∧
    ((r.setTimeStep v).1.stepTime = r.stepTime ∧
     (r.setMaxTimeStepWarning v).1.stepTime = r.stepTime ∧
     (r.setMaxTimeStepError v).1.stepTime = r.stepTime ∧
     (r.setEnforceRate e).stepTime = r.stepTime) ∧
    (r.reset now).stepTime = now := by
  refine ⟨fun hts => ?_, ⟨?_, ?_, ?_, rfl⟩, rfl⟩
  · by_cases hB : GetDuration now2 (advanceStepTime r.stepTime r.timeStep) < 0
    · by_cases hE : r.enforceRate
      · rw [sleep_behind_enforce r now1 now2 hB hE]
        exact advanceStepTime_val_ge r.stepTime r.timeStep hts
      · rw [sleep_behind_noEnforce r now1 now2 hB (by simpa using hE)]
        show r.stepTime.val ≤ now2.val
        have h1 := advanceStepTime_val_ge r.stepTime r.timeStep hts
        have h2 : (advanceStepTime r.stepTime r.timeStep).val - now2.val < 0 := by
          rw [← GetDuration_eq]
          exact hB
        linarith
    · rw [sleep_notBehind r now1 now2 hB]
      exact advanceStepTime_val_ge r.stepTime r.timeStep hts
  · unfold Rate.setTimeStep
    split <;> rfl
  · unfold Rate.setMaxTimeStepWarning
    split <;> rfl
  · unfold Rate.setMaxTimeStepError
    split <;> rfl

/-- Witness for C7 at a concrete state and clock samples. -/
theorem stepTime_never_rewound_witness :
    (rate0.stepTime).val ≤ (((rate0.sleep ⟨5, 0⟩ ⟨5, 0⟩).state).stepTime).val :=
  (stepTime_never_rewound rate0 ⟨5, 0⟩ ⟨5, 0⟩ ts0 FloatVal.nan true).1 (by norm_num [rate0])

/-- C10: the stored step time stays normalized.  Reset stores the
normalized clock sample; a sleep call with a nonnegative time step, a
normalized stored step time and a normalized second clock sample leaves
the step time normalized, both on the integer carry path and on the
snap-to-sleepEnd path. -/
theorem stepTime_stays_normalized (r : Rate) (now now1 now2 : Timespec) :
    (now.Normalized → ((r.reset now).stepTime).Normalized) ∧
    (0 ≤ r.timeStep → r.stepTime.Normalized → now2.Normalized →
      (((r.sleep now1 now2).state).stepTime).Normalized) := by
  refine ⟨fun hn => hn, fun hts hst hn2 => ?_⟩
  by_cases hB : GetDuration now2 (advanceStepTime r.stepTime r.timeStep) < 0
  · by_cases hE : r.enforceRate
    · rw [sleep_behind_enforce r now1 now2 hB hE]
      exact advanceStepTime_normalized r.stepTime r.timeStep hst hts
    · rw [sleep_behind_noEnforce r now1 now2 hB (by simpa using hE)]
      exact hn2
  · rw [sleep_notBehind r now1 now2 hB]
    exact advanceStepTime_normalized r.stepTime r.timeStep hst hts

/-- Witness for C10 at a concrete state and clock samples. -/
theorem stepTime_stays_normalized_witness :
    (((rate0.sleep ⟨5, 0⟩ ⟨5, 0⟩).state).stepTime).Normalized :=
  (stepTime_stays_normalized rate0 ts0 ⟨5, 0⟩ ⟨5, 0⟩).2
    (by norm_num [rate0]) (by decide) (by decide)

/-- C8: with a time step of zero, a sleep call still counts the cycle,
updates the running statistics and evaluates the thresholds, and it
never asks the caller to wait beyond the second clock sample: with a
normalized step time that does not lie in the future, the advance
leaves the target unchanged, so any blocking instant is at or before
the current clock sample. -/
theorem sleep_zero_timeStep (r : Rate) (now1 now2 : Timespec)
    (h0 : r.timeStep = 0) (hst : r.stepTime.Normalized) (hle : r.stepTime.val ≤ now2.val) :
    (r.sleep now1 now2).state.numTimeSteps = r.numTimeSteps + 1 ∧
    (r.sleep now1 now2).state.awakeTimeMean =
      r.awakeTimeMean + (sleepAwake r now1 - r.awakeTimeMean) / ((r.numTimeSteps : ℚ) + 1) ∧
    (r.sleep now1 now2).state.awakeTimeM2 =
      r.awakeTimeM2 + (sleepAwake r now1 - r.awakeTimeMean) *
        (sleepAwake r now1 -
          (r.awakeTimeMean + (sleepAwake r now1 - r.awakeTimeMean) / ((r.numTimeSteps : ℚ) + 1))) ∧
    (r.sleep now1 now2).state.numErrors =
      (if FloatVal.gtF (sleepAwake r now1) r.maxTimeStepError then r.numErrors + 1 else r.numErrors) ∧
    (r.sleep now1 now2).state.numWarnings =
      (if sleepIsWarning r now1 then r.numWarnings + 1 else r.numWarnings) ∧
    (∀ t : Timespec, (r.sleep now1 now2).blocksUntil = some t → t.val ≤ now2.val) := by
  obtain ⟨h1, -, h3, h4, h5, h6, -⟩ := sleep_state_stats r now1 now2
  refine ⟨h1, h3, h4, by simpa [sleepIsError] using h5, h6, fun t ht => ?_⟩
  have hadv : advanceStepTime r.stepTime r.timeStep = r.stepTime := by
    rw [h0]
    exact advanceStepTime_zero r.stepTime hst
  by_cases hB : GetDuration now2 (advanceStepTime r.stepTime r.timeStep) < 0
  · by_cases hE : r.enforceRate
    · rw [sleep_behind_enforce r now1 now2 hB hE] at ht
      simp at ht
    · rw [sleep_behind_noEnforce r now1 now2 hB (by simpa using hE)] at ht
      simp at ht
  · rw [sleep_notBehind r now1 now2 hB] at ht
    simp only [Option.some.injEq] at ht
    rw [← ht, hadv]
    exact hle

/-- Witness for C8: a concrete zero-step state. -/
theorem sleep_zero_timeStep_witness :
    ({ rate0 with timeStep := 0 }.sleep ⟨5, 0⟩ ⟨5, 0⟩).state.numTimeSteps =
      { rate0 with timeStep := 0 }.numTimeSteps + 1 ∧
    (∀ t : Timespec,
      ({ rate0 with timeStep := 0 }.sleep ⟨5, 0⟩ ⟨5, 0⟩).blocksUntil = some t →
        t.val ≤ (⟨5, 0⟩ : Timespec).val) := by
  obtain ⟨w1, -, -, -, -, w6⟩ :=
    sleep_zero_timeStep { rate0 with timeStep := 0 } ⟨5, 0⟩ ⟨5, 0⟩ rfl (by decide)
      (by norm_num [rate0, ts0, Timespec.val, SecPerNSec])
  exact ⟨w1, w6⟩

/-- C5: Welford equivalence.  The statistics fields of the state after
a sleep call equal the single-pass update applied to the previous
fields with the awake sample; and for any fixed sample list the
single-pass run yields exactly the direct arithmetic mean, the direct
sum of squared deviations, and (past two samples) the direct unbiased
sample variance.  Over exact arithmetic the match is exact, which is
stronger than the floating-point tolerance the claim allows. -/
theorem welford_matches_direct (xs : List ℚ) (r : Rate) (now1 now2 : Timespec) :
    ((r.sleep now1 now2).state.numTimeSteps =
      (welfordUpdate ⟨r.numTimeSteps, r.awakeTimeMean, r.awakeTimeM2⟩ (sleepAwake r now1)).numTimeSteps ∧
     (r.sleep now1 now2).state.awakeTimeMean =
      (welfordUpdate ⟨r.numTimeSteps, r.awakeTimeMean, r.awakeTimeM2⟩ (sleepAwake r now1)).awakeTimeMean ∧
     (r.sleep now1 now2).state.awakeTimeM2 =
      (welfordUpdate ⟨r.numTimeSteps, r.awakeTimeMean, r.awakeTimeM2⟩ (sleepAwake r now1)).awakeTimeM2) ∧
    (welfordRun xs).awakeTimeMean = directMean xs ∧
    (welfordRun xs).awakeTimeM2 = directM2 xs ∧
    (2 ≤ xs.length →
      (welfordRun xs).awakeTimeM2 / (((welfordRun xs).numTimeSteps : ℚ) - 1) = directVar xs) := by
  obtain ⟨h1, -, h3, h4, -⟩ := sleep_state_stats r now1 now2
  have hcast : ((r.numTimeSteps + 1 : ℕ) : ℚ) = (r.numTimeSteps : ℚ) + 1 := by push_cast; ring
  refine ⟨⟨?_, ?_, ?_⟩, ?_, ?_, fun _ => ?_⟩
  · rw [h1]
    simp [welfordUpdate]
  · rw [h3]
    simp [welfordUpdate, hcast]
  · rw [h4]
    simp [welfordUpdate, hcast]
  · rw [welfordRun_charac]
  · rw [welfordRun_charac]
  · rw [welfordRun_charac, directVar]

/-- Witness for C5 on the concrete sample list with entries one and
three: mean two, unbiased variance two. -/
theorem welford_matches_direct_witness :
    (welfordRun [1, 3]).awakeTimeMean = directMean [1, 3] ∧
    (welfordRun [1, 3]).awakeTimeM2 / (((welfordRun [1, 3]).numTimeSteps : ℚ) - 1) =
      directVar [1, 3] :=
  ⟨(welford_matches_direct [1, 3] rate0 ts0 ts0).2.1,
   (welford_matches_direct [1, 3] rate0 ts0 ts0).2.2.2 (by simp)⟩

/-- C6: accessor semantics.  In every reachable state, getAwakeTime and
getAwakeTimeMean are NaN (none) exactly when no cycle has run since
reset; getAwakeTimeVar is NaN exactly when fewer than two cycles have
run, and otherwise equals awakeTimeM2 / (numTimeSteps - 1), a
nonnegative value; getAwakeTimeStdDev is the square root of the
variance.  After reset all statistics accessors are NaN, and after
exactly one sleep call with a later first clock sample, getAwakeTime is
a nonnegative value while the variance is still NaN.  The accessors are
pure functions of the state, so they have no side effects. -/
theorem accessor_nan_semantics :
    (∀ r : Rate, Reachable r →
      (r.getAwakeTime = none ↔ r.numTimeSteps = 0) ∧
      (r.getAwakeTimeMean = none ↔ r.numTimeSteps = 0) ∧
      (r.getAwakeTimeVar = none ↔ r.numTimeSteps ≤ 1) ∧
      (2 ≤ r.numTimeSteps →
        r.getAwakeTimeVar = some (r.awakeTimeM2 / ((r.numTimeSteps - 1 : ℕ) : ℚ)) ∧
        0 ≤ r.awakeTimeM2 / ((r.numTimeSteps - 1 : ℕ) : ℚ)) ∧
      (∀ v : ℚ, r.getAwakeTimeVar = some v →
        r.getAwakeTimeStdDev = some (Real.sqrt (v : ℝ)) ∧
        Real.sqrt (v : ℝ) ^ 2 = (v : ℝ) ∧ 0 ≤ Real.sqrt (v : ℝ)) ∧
      (r.getAwakeTimeVar = none → r.getAwakeTimeStdDev = none)) ∧
    (∀ (r : Rate) (now now1 now2 : Timespec),
      (r.reset now).getAwakeTime = none ∧
      (r.reset now).getAwakeTimeMean = none ∧
      (r.reset now).getAwakeTimeVar = none ∧
      (now.val ≤ now1.val →
        ∃ q : ℚ, (((r.reset now).sleep now1 now2).state).getAwakeTime = some q ∧ 0 ≤ q ∧
          (((r.reset now).sleep now1 now2).state).getAwakeTimeVar = none)) := by
  constructor
  · intro r hr
    have hM2 := reachable_M2_nonneg r hr
    refine ⟨?_, ?_, ?_, fun h2 => ?_, fun v hv => ?_, fun hv => ?_⟩
    · unfold Rate.getAwakeTime
      split <;> simp_all
    · unfold Rate.getAwakeTimeMean
      split <;> simp_all
    · unfold Rate.getAwakeTimeVar
      split <;> simp_all
    · have hn : ¬ r.numTimeSteps ≤ 1 := by omega
      unfold Rate.getAwakeTimeVar
      rw [if_neg hn]
      refine ⟨rfl, ?_⟩
      have hden : (0 : ℚ) ≤ ((r.numTimeSteps - 1 : ℕ) : ℚ) := by positivity
      exact div_nonneg hM2 hden
    · have hvval : v = r.awakeTimeM2 / ((r.numTimeSteps - 1 : ℕ) : ℚ) := by
        unfold Rate.getAwakeTimeVar at hv
        by_cases hn : r.numTimeSteps ≤ 1
        · rw [if_pos hn] at hv
          cases hv
        · rw [if_neg hn] at hv
          exact (Option.some.injEq _ _ ▸ hv).symm
      have hv0 : (0 : ℝ) ≤ (v : ℝ) := by
        have hden : (0 : ℚ) ≤ ((r.numTimeSteps - 1 : ℕ) : ℚ) := by positivity
        have : (0 : ℚ) ≤ v := hvval ▸ div_nonneg hM2 hden
        exact_mod_cast this
      refine ⟨?_, Real.sq_sqrt hv0, Real.sqrt_nonneg _⟩
      unfold Rate.getAwakeTimeStdDev
      rw [hv]
      rfl
    · unfold Rate.getAwakeTimeStdDev
      rw [hv]
      rfl
  · intro r now now1 now2
    refine ⟨rfl, rfl, rfl, fun hle => ?_⟩
    obtain ⟨h1, h2, -⟩ := sleep_state_stats (r.reset now) now1 now2
    have hawake : sleepAwake (r.reset now) now1 = now1.val - now.val := by
      unfold sleepAwake
      rw [GetDuration_eq]
      rfl
    refine ⟨sleepAwake (r.reset now) now1, ?_, ?_, ?_⟩
    · unfold Rate.getAwakeTime
      rw [if_neg (by rw [h1]; simp [Rate.reset])]
      rw [h2]
    · rw [hawake]
      linarith
    · unfold Rate.getAwakeTimeVar
      rw [if_pos (by rw [h1]; simp [Rate.reset])]

/-- Witness for C6: the reachable state obtained by resetting the
concrete state at time zero, then one sleep with later samples. -/
theorem accessor_nan_semantics_witness :
    ((rate0.reset ts0).getAwakeTime = none ↔ (rate0.reset ts0).numTimeSteps = 0) ∧
    (∃ q : ℚ, (((rate0.reset ts0).sleep ⟨5, 0⟩ ⟨5, 0⟩).state).getAwakeTime = some q ∧ 0 ≤ q ∧
      (((rate0.reset ts0).sleep ⟨5, 0⟩ ⟨5, 0⟩).state).getAwakeTimeVar = none) := by
  have hreach : Reachable (rate0.reset ts0) := by
    refine Reachable.init rate0 ts0 ⟨?_, ?_, ?_⟩ (by decide)
    · norm_num [rate0]
    · norm_num [rate0, MaxTimeStepIsValid, FloatVal.geZero, FloatVal.isNan]
    · norm_num [rate0, MaxTimeStepIsValid, FloatVal.geZero, FloatVal.isNan]
  refine ⟨((accessor_nan_semantics.1 (rate0.reset ts0) hreach).1), ?_⟩
  exact (accessor_nan_semantics.2 rate0 ts0 ⟨5, 0⟩ ⟨5, 0⟩).2.2.2
    (by norm_num [ts0, Timespec.val, SecPerNSec])

/-- Iterating sleep with a frozen clock equal to the schedule anchor:
the configuration is untouched, the step time stays normalized, never
falls behind the anchor, and advances by exactly the truncated
nanosecond count of the time step on every call. -/
theorem iterSleep_stepTime (r0 : Rate) (now : Timespec) (N : ℕ)
    (hts : 0 ≤ r0.timeStep) (hstep : r0.stepTime.Normalized)
    (hge : now.val ≤ r0.stepTime.val) :
    (iterSleep r0 now N).timeStep = r0.timeStep ∧
    (iterSleep r0 now N).stepTime.Normalized ∧
    now.val ≤ (iterSleep r0 now N).stepTime.val ∧
    (iterSleep r0 now N).stepTime.val =
      r0.stepTime.val + (N : ℚ) * ((⌊r0.timeStep * (NSecPerSec : ℚ)⌋ : ℚ) * SecPerNSec) := by
  induction N with
  | zero => exact ⟨rfl, hstep, hge, by simp [iterSleep]⟩
  | succ n ih =>
    obtain ⟨ih1, ih2, ih3, ih4⟩ := ih
    have htsn : 0 ≤ (iterSleep r0 now n).timeStep := by rw [ih1]; exact hts
    have hadv_ge : (iterSleep r0 now n).stepTime.val ≤
        (advanceStepTime (iterSleep r0 now n).stepTime (iterSleep r0 now n).timeStep).val :=
      advanceStepTime_val_ge _ _ htsn
    have hnotB : ¬ GetDuration now
        (advanceStepTime (iterSleep r0 now n).stepTime (iterSleep r0 now n).timeStep) < 0 := by
      rw [GetDuration_eq]
      linarith
    have hstep_eq : iterSleep r0 now (n + 1) = ((iterSleep r0 now n).sleep now now).state := rfl
    rw [hstep_eq, sleep_notBehind _ now now hnotB]
    have hexact : (advanceStepTime (iterSleep r0 now n).stepTime (iterSleep r0 now n).timeStep).val =
        (iterSleep r0 now n).stepTime.val +
          (⌊(iterSleep r0 now n).timeStep * (NSecPerSec : ℚ)⌋ : ℚ) * SecPerNSec :=
      advanceStepTime_val_exact _ _ ih2.1 htsn
    refine ⟨ih1, advanceStepTime_normalized _ _ ih2 htsn, ?_, ?_⟩
    · show now.val ≤ (advanceStepTime (iterSleep r0 now n).stepTime (iterSleep r0 now n).timeStep).val
      linarith
    · show (advanceStepTime (iterSleep r0 now n).stepTime (iterSleep r0 now n).timeStep).val =
        r0.stepTime.val + ((n + 1 : ℕ) : ℚ) * ((⌊r0.timeStep * (NSecPerSec : ℚ)⌋ : ℚ) * SecPerNSec)
      rw [hexact, ih4, ih1]
      push_cast
      ring

/-- C1 amended: after reset and N sleep calls with negligible work (a
frozen clock), the stored step time equals the reset-time clock value
plus N times the time step truncated to a whole number of nanoseconds,
exactly; in particular, whenever the time step is a whole number of
nanoseconds the step time equals the reset-time value plus N times the
time step with no drift at all.  The claim as frozen fails for time
steps with a fractional nanosecond part, whose truncation accumulates
beyond the clock resolution. -/
theorem sleep_driftFree (r : Rate) (now : Timespec) (N : ℕ)
    (hts : 0 ≤ r.timeStep) (hnow : now.Normalized) :
    ((iterSleep (r.reset now) now N).stepTime).val =
      now.val + (N : ℚ) * ((⌊r.timeStep * (NSecPerSec : ℚ)⌋ : ℚ) * SecPerNSec) ∧
    (r.timeStep * (NSecPerSec : ℚ) = (⌊r.timeStep * (NSecPerSec : ℚ)⌋ : ℚ) →
      ((iterSleep (r.reset now) now N).stepTime).val = now.val + (N : ℚ) * r.timeStep) := by
  obtain ⟨-, -, -, h4⟩ := iterSleep_stepTime (r.reset now) now N hts hnow (le_refl now.val)
  have hrt : (r.reset now).timeStep = r.timeStep := rfl
  have hrs : (r.reset now).stepTime = now := rfl
  rw [hrt, hrs] at h4
  refine ⟨h4, fun hint => ?_⟩
  rw [h4]
  have hQ : (⌊r.timeStep * (NSecPerSec : ℚ)⌋ : ℚ) * SecPerNSec = r.timeStep := by
    rw [← hint]
    unfold SecPerNSec NSecPerSec
    push_cast
    ring
  rw [hQ]

/-- A concrete Rate state whose time step is one and a half
nanoseconds, a valid value with a fractional nanosecond part. -/
def rateC1 : Rate :=
  ⟨"rate", 3 / 2000000000, FloatVal.finite 2, FloatVal.finite 2, true, ts0, ts0, ts0, 0, 0, 0, 0, 0, 0⟩

/-- C1 counterexample: with the valid time step of one and a half
nanoseconds, after reset at time zero and three sleep calls with a
frozen clock, the stored step time is three nanoseconds, which differs
from zero plus three times the time step (four and a half nanoseconds)
by more than the clock resolution of one nanosecond. -/
theorem sleep_driftFree_counterexample :
    0 ≤ rateC1.timeStep ∧ Timespec.Normalized ts0 ∧
    ¬ (|((iterSleep (rateC1.reset ts0) ts0 3).stepTime).val -
        (ts0.val + (3 : ℚ) * rateC1.timeStep)| ≤ SecPerNSec) := by
  refine ⟨by norm_num [rateC1], by decide, ?_⟩
  obtain ⟨-, -, -, h4⟩ :=
    iterSleep_stepTime (rateC1.reset ts0) ts0 3 (by norm_num [rateC1, Rate.reset]) (by decide)
      (le_refl _)
  have hrt : (rateC1.reset ts0).timeStep = rateC1.timeStep := rfl
  have hrs : (rateC1.reset ts0).stepTime = ts0 := rfl
  rw [hrt, hrs] at h4
  rw [h4]
  have hfloor : ⌊rateC1.timeStep * (NSecPerSec : ℚ)⌋ = 1 := by
    show ⌊(3 / 2000000000 : ℚ) * ((1000000000 : ℤ) : ℚ)⌋ = 1
    rw [Int.floor_eq_iff]
    push_cast
    norm_num
  rw [hfloor, not_le, lt_abs]
  right
  push_cast
  norm_num [ts0, Timespec.val, SecPerNSec, rateC1]

/-- Witness for the amended C1 with the whole-nanosecond time step of
one second: after two calls the step time is the anchor plus two
seconds exactly. -/
theorem sleep_driftFree_witness :
    ((iterSleep (rate0.reset ts0) ts0 2).stepTime).val = ts0.val + (2 : ℚ) * rate0.timeStep :=
  (sleep_driftFree rate0 ts0 2 (by norm_num [rate0]) (by decide)).2
    (by show (1 : ℚ) * ((1000000000 : ℤ) : ℚ) = (⌊(1 : ℚ) * ((1000000000 : ℤ) : ℚ)⌋ : ℚ)
        push_cast
        norm_num)

/-- C4 counterexample: the warning-threshold setter accepts positive
infinity and stores it, so the setters do not reject every infinite
threshold argument, contrary to the claim that the prior stored value
is left in place. -/
theorem setters_reject_invalid_counterexample :
    rate0.maxTimeStepWarning = FloatVal.finite 2 ∧
    (rate0.setMaxTimeStepWarning (FloatVal.inf true)).1.maxTimeStepWarning = FloatVal.inf true ∧
    (rate0.setMaxTimeStepError (FloatVal.inf true)).1.maxTimeStepError = FloatVal.inf true ∧
    FloatVal.inf true ≠ FloatVal.finite 2 := by
  refine ⟨rfl, ?_, ?_, by decide⟩ <;>
    simp [Rate.setMaxTimeStepWarning, Rate.setMaxTimeStepError, MaxTimeStepIsValid,
      FloatVal.geZero, FloatVal.isNan]

/-- C4 amended: the time-step setter rejects NaN, both infinities and
negative values, keeping the prior value and emitting a diagnostic,
and stores any nonnegative finite value; the threshold setters reject
NaN, negative infinity and negative finite values the same way, but
accept and store positive infinity.  No setter throws: each is a total
function returning the successor state. -/
theorem setters_reject_invalid (r : Rate) (q : ℚ) (b : Bool) :
    (r.setTimeStep FloatVal.nan = (r, true)) ∧
    (r.setTimeStep (FloatVal.inf b) = (r, true)) ∧
    (q < 0 → r.setTimeStep (FloatVal.finite q) = (r, true)) ∧
    (0 ≤ q → (r.setTimeStep (FloatVal.finite q)).1.getTimeStep = q) ∧
    (r.setMaxTimeStepWarning FloatVal.nan = (r, true)) ∧
    (r.setMaxTimeStepError FloatVal.nan = (r, true)) ∧
    (r.setMaxTimeStepWarning (FloatVal.inf false) = (r, true)) ∧
    (r.setMaxTimeStepError (FloatVal.inf false) = (r, true)) ∧
    (q < 0 → r.setMaxTimeStepWarning (FloatVal.finite q) = (r, true) ∧
      r.setMaxTimeStepError (FloatVal.finite q) = (r, true)) ∧
    ((r.setMaxTimeStepWarning (FloatVal.inf true)).1.maxTimeStepWarning = FloatVal.inf true ∧
      (r.setMaxTimeStepError (FloatVal.inf true)).1.maxTimeStepError = FloatVal.inf true) := by
  refine ⟨?_, ?_, fun hq => ?_, fun hq => ?_, ?_, ?_, ?_, ?_, fun hq => ⟨?_, ?_⟩, ?_, ?_⟩
  · simp [Rate.setTimeStep, TimeStepIsValid, FloatVal.geZero, FloatVal.isNan, FloatVal.isInf]
  · simp [Rate.setTimeStep, TimeStepIsValid, FloatVal.geZero, FloatVal.isNan, FloatVal.isInf]
  · simp [Rate.setTimeStep, TimeStepIsValid, FloatVal.geZero, FloatVal.isNan, FloatVal.isInf,
      not_le.mpr hq]
  · simp [Rate.setTimeStep, TimeStepIsValid, FloatVal.geZero, FloatVal.isNan, FloatVal.isInf,
      FloatVal.toQ, Rate.getTimeStep, hq]
  · simp [Rate.setMaxTimeStepWarning, MaxTimeStepIsValid, FloatVal.geZero, FloatVal.isNan]
  · simp [Rate.setMaxTimeStepError, MaxTimeStepIsValid, FloatVal.geZero, FloatVal.isNan]
  · simp [Rate.setMaxTimeStepWarning, MaxTimeStepIsValid, FloatVal.geZero, FloatVal.isNan]
  · simp [Rate.setMaxTimeStepError, MaxTimeStepIsValid, FloatVal.geZero, FloatVal.isNan]
  · simp [Rate.setMaxTimeStepWarning, MaxTimeStepIsValid, FloatVal.geZero, FloatVal.isNan,
      not_le.mpr hq]
  · simp [Rate.setMaxTimeStepError, MaxTimeStepIsValid, FloatVal.geZero, FloatVal.isNan,
      not_le.mpr hq]
  · simp [Rate.setMaxTimeStepWarning, MaxTimeStepIsValid, FloatVal.geZero, FloatVal.isNan]
  · simp [Rate.setMaxTimeStepError, MaxTimeStepIsValid, FloatVal.geZero, FloatVal.isNan]

/-- Witness for the amended C4 at concrete inputs. -/
theorem setters_reject_invalid_witness :
    rate0.setTimeStep (FloatVal.finite (-1)) = (rate0, true) ∧
    (rate0.setTimeStep (FloatVal.finite 5)).1.getTimeStep = 5 := by
  have h := setters_reject_invalid rate0 (-1) true
  have h5 := setters_reject_invalid rate0 5 true
  exact ⟨h.2.2.1 (by norm_num), h5.2.2.2.1 (by norm_num)⟩

/-- The concrete sleep call used for C9: awake time five seconds
exceeds the error threshold of two seconds, and the emitted error
diagnostic shows the time step of one second as its limit value. -/
theorem rate0_sleep_diags :
    (rate0.sleep ⟨5, 0⟩ ⟨5, 0⟩).diags = [⟨Severity.error, "rate", 5, 1⟩] := by
  rw [sleep_diags_eq]
  have hE : sleepIsError rate0 ⟨5, 0⟩ = true := by
    rw [sleepIsError, rate0_awake5]
    norm_num [rate0, FloatVal.gtF]
  rw [sleepDiags, if_pos hE, rate0_awake5]
  rfl

/-- C9 counterexample: the error diagnostic of a cycle whose awake time
exceeds the error threshold carries the current time step (one), not
the exceeded error threshold (two), so the claim that each diagnostic
carries the numeric value of the exceeded threshold fails. -/
theorem sleep_diag_content_counterexample :
    rate0.maxTimeStepError = FloatVal.finite 2 ∧
    (rate0.sleep ⟨5, 0⟩ ⟨5, 0⟩).diags = [⟨Severity.error, "rate", 5, 1⟩] ∧
    ¬ (∀ d ∈ (rate0.sleep ⟨5, 0⟩ ⟨5, 0⟩).diags,
        d.severity = Severity.error → d.shownLimit = 2) := by
  refine ⟨rfl, rate0_sleep_diags, fun hall => ?_⟩
  have hd := hall ⟨Severity.error, "rate", 5, 1⟩ (by rw [rate0_sleep_diags]; simp) rfl
  norm_num at hd

/-- C9 amended: every diagnostic emitted by sleep carries the rate
name, the awake time of the cycle, and the current time step (not the
exceeded threshold); the severity is error exactly when the awake time
exceeds the error threshold.  The pacer never aborts: sleep is a total
function returning a successor state. -/
theorem sleep_diag_content (r : Rate) (now1 now2 : Timespec) :
    ∀ d ∈ (r.sleep now1 now2).diags,
      d.rateName = r.name ∧ d.shownAwake = sleepAwake r now1 ∧ d.shownLimit = r.timeStep ∧
      (d.severity = Severity.error ↔
        FloatVal.gtF (sleepAwake r now1) r.maxTimeStepError = true) := by
  intro d hd
  rw [sleep_diags_eq] at hd
  unfold sleepDiags at hd
  by_cases hE : sleepIsError r now1
  · rw [if_pos hE] at hd
    simp only [List.mem_singleton] at hd
    subst hd
    refine ⟨rfl, rfl, rfl, ?_⟩
    simp only [sleepIsError] at hE
    simp [hE]
  · rw [if_neg hE] at hd
    by_cases hW : sleepIsWarning r now1
    · rw [if_pos hW] at hd
      simp only [List.mem_singleton] at hd
      subst hd
      refine ⟨rfl, rfl, rfl, ?_⟩
      simp only [sleepIsError] at hE
      simp only [Bool.not_eq_true] at hE
      simp [hE]
    · rw [if_neg hW] at hd
      simp at hd

/-- Witness for the amended C9 at the concrete error diagnostic. -/
theorem sleep_diag_content_witness :
    (⟨Severity.error, "rate", 5, 1⟩ : Diag).rateName = rate0.name ∧
    (⟨Severity.error, "rate", 5, 1⟩ : Diag).shownAwake = sleepAwake rate0 ⟨5, 0⟩ ∧
    (⟨Severity.error, "rate", 5, 1⟩ : Diag).shownLimit = rate0.timeStep ∧
    ((⟨Severity.error, "rate", 5, 1⟩ : Diag).severity = Severity.error ↔
      FloatVal.gtF (sleepAwake rate0 ⟨5, 0⟩) rate0.maxTimeStepError = true) :=
  sleep_diag_content rate0 ⟨5, 0⟩ ⟨5, 0⟩ ⟨Severity.error, "rate", 5, 1⟩
    (by rw [rate0_sleep_diags]; simp)
